import Mathlib

/-!
Verification of the discord-slowmode-bot scheduling core.

Shallow embedding of `src/scheduler.py`, `src/config.py` and the glue in
`src/bot_simple.py`.  Python strings are modelled as `List Char`; Python
dicts (the rule index, the job registry, the persisted config) are
modelled as association lists with replace-on-insert semantics; Python
exceptions that the source catches are modelled as `Option`-valued
parsers and as explicit failure outcomes of the injected collaborators.
-/

namespace Slowmode

/-- Python strings are lists of characters. -/
abbrev Str := List Char

/-- Coerce a Lean string literal to the `Str` model. -/
def strOf (s : String) : Str := s.data

/-! ### Python `str`/`int` primitives used by the source -/

/-- Whitespace as stripped by Python `int()` around its argument. -/
def isPySpace (c : Char) : Bool :=
  c == ' ' || c == '\t' || c == '\n' || c == '\r'

/-- Strip leading and trailing whitespace. -/
def stripWs (s : Str) : Str :=
  ((s.dropWhile isPySpace).reverse.dropWhile isPySpace).reverse

/-- Decimal value of a string of digit characters. -/
def digitsToNat (s : Str) : Nat :=
  s.foldl (fun acc c => acc * 10 + (c.toNat - '0'.toNat)) 0

/-- Parse a nonempty all-digit string. -/
def parseDigits (s : Str) : Option Nat :=
  if s.isEmpty then none
  else if s.all Char.isDigit then some (digitsToNat s) else none

/-- Python `int(s)`: optional surrounding whitespace, optional sign,
decimal digits; anything else raises `ValueError`, modelled as `none`. -/
def parsePyInt (s : Str) : Option Int :=
  match stripWs s with
  | '+' :: rest => (parseDigits rest).map (fun n => (n : Int))
  | '-' :: rest => (parseDigits rest).map (fun n => -(n : Int))
  | t => (parseDigits t).map (fun n => (n : Int))

/-- Python `s.split(sep)` for a one-character separator: empty segments
are kept and the empty string splits to `[""]`. -/
def splitOnChar (sep : Char) : Str → List Str
  | [] => [[]]
  | c :: cs =>
    match splitOnChar sep cs, c == sep with
    | r, true => [] :: r
    | [], false => [[c]]
    | s :: ss, false => (c :: s) :: ss

/-- `start_hour, start_minute = map(int, start_time.split(':'))`
(scheduler.py line 60): succeeds only with exactly two colon-separated
components that both parse as Python ints; otherwise `ValueError`. -/
def parseTime (s : Str) : Option (Int × Int) :=
  match (splitOnChar ':' s).map parsePyInt with
  | [some h, some m] => some (h, m)
  | _ => none

/-- Python string `.lower()` restricted to ASCII, as used on day tags. -/
def lowerStr (s : Str) : Str := s.map Char.toLower

/-- Decimal rendering of a natural number, one character per digit,
mirroring Python `str(n)` inside f-strings.  Fuel-based so that it
reduces definitionally on concrete inputs. -/
def natReprCore : Nat → Nat → Str → Str
  | 0, _, acc => acc
  | fuel + 1, n, acc =>
    if n / 10 = 0 then Nat.digitChar (n % 10) :: acc
    else natReprCore fuel (n / 10) (Nat.digitChar (n % 10) :: acc)

/-- Python `str(n)` for a natural number. -/
def natRepr (n : Nat) : Str := natReprCore (n + 1) n []

/-- Python `sep.join(parts)` for a one-character separator. -/
def joinChar (sep : Char) : List Str → Str
  | [] => []
  | [x] => x
  | x :: y :: xs => x ++ sep :: joinChar sep (y :: xs)

/-! ### Association lists modelling Python dicts -/

/-- `key in d`. -/
def containsKey {α : Type} (l : List (Str × α)) (k : Str) : Bool :=
  l.any (fun p => p.1 == k)

/-- `d[key]` lookup. -/
def lookupKey {α : Type} (l : List (Str × α)) (k : Str) : Option α :=
  (l.find? (fun p => p.1 == k)).map Prod.snd

/-- `d[key] = v`: replaces in place if present, appends otherwise. -/
def insertKey {α : Type} (l : List (Str × α)) (k : Str) (v : α) : List (Str × α) :=
  if containsKey l k then l.map (fun p => if p.1 == k then (k, v) else p)
  else l ++ [(k, v)]

/-- `del d[key]` (no-op when absent). -/
def eraseKey {α : Type} (l : List (Str × α)) (k : Str) : List (Str × α) :=
  l.filter (fun p => !(p.1 == k))

/-- Number of entries stored under a key. -/
def countKey {α : Type} (l : List (Str × α)) (k : Str) : Nat :=
  (l.filter (fun p => p.1 == k)).length

/-! ### Data model (scheduler.py) -/

/-- The value stored in `self.schedules[schedule_id]`
(scheduler.py lines 80-88). -/
structure ScheduleData where
  channel_id : Nat
  start_time : Str
  end_time : Str
  slowmode_seconds : Int
  timezone : Str
  days : List Str
  restore_seconds : Int
deriving DecidableEq

/-- Which callback a job is bound to. -/
inductive JobFunc
  | enableSlowmode
  | restoreSlowmode
deriving DecidableEq

/-- The `CronTrigger(hour, minute, day_of_week, timezone)` recurrence
spec built in scheduler.py lines 97-102 and 112-117. -/
structure CronTrigger where
  hour : Int
  minute : Int
  day_of_week : Str
  timezone : Str
deriving DecidableEq

/-- One entry of the APScheduler job registry. -/
structure Job where
  func : JobFunc
  trigger : CronTrigger
  args_channel : Nat
  args_seconds : Int
deriving DecidableEq

/-- The scheduler's mutable state: the rule index `self.schedules` and
the job registry of the wrapped `AsyncIOScheduler`. -/
structure SchedState where
  schedules : List (Str × ScheduleData)
  jobs : List (Str × Job)
deriving DecidableEq

/-- Outcome of one call to the external slowmode setter: a boolean
result, or a raised exception. -/
inductive ExecResult
  | ok (success : Bool)
  | exn
deriving DecidableEq

/-- Injected collaborators and failure switches: which timezone names
`pytz.timezone` accepts, the bot's `set_channel_slowmode` attribute (or
its absence), the module-level fallback function, and which
`scheduler.remove_job` calls raise. -/
structure Env where
  tzOk : Str → Bool
  bot_set : Option (Nat → Int → ExecResult)
  global_set : Nat → Int → ExecResult
  removeFails : Str → Bool

/-- The seven weekday tags in the order hard-coded at
scheduler.py line 91. -/
def weekdayTags : List Str :=
  [strOf "mon", strOf "tue", strOf "wed", strOf "thu", strOf "fri",
   strOf "sat", strOf "sun"]

/-- Default `days` value (scheduler.py line 77). -/
def allDays : List Str := weekdayTags

/-- `list.index` helper: position of the first element equal to `d`. -/
def idxFrom (l : List Str) (d : Str) (i : Nat) : Option Nat :=
  match l with
  | [] => none
  | x :: xs => if x == d then some i else idxFrom xs d (i + 1)

/-- `['mon', ..., 'sun'].index(day)`; `ValueError` (absent tag) is
modelled as `none`. -/
def indexOfDay (d : Str) : Option Nat := idxFrom weekdayTags d 0

/-- The list comprehension `[index(day) for day in days]`: fails as
soon as one tag is invalid. -/
def mapIndex : List Str → Option (List Nat)
  | [] => some []
  | d :: ds =>
    match indexOfDay d, mapIndex ds with
    | some i, some is => some (i :: is)
    | _, _ => none

/-- `','.join([str(index(day)) for day in days])`
(scheduler.py line 91): `none` when some tag is invalid. -/
def daysToCron (days : List Str) : Option Str :=
  (mapIndex days).map (fun idxs => joinChar ',' (idxs.map natRepr))

/-- Hour/minute range check of scheduler.py lines 64 and 68. -/
def timeOk (h m : Int) : Bool :=
  0 ≤ h && h ≤ 23 && 0 ≤ m && m ≤ 59

/-- Job key `f"{schedule_id}_start"`. -/
def startKey (sid : Str) : Str := sid ++ strOf "_start"

/-- Job key `f"{schedule_id}_end"`. -/
def endKey (sid : Str) : Str := sid ++ strOf "_end"

/-- `SlowmodeScheduler.add_schedule` (scheduler.py lines 39-134).
Returns the boolean result and the state after the call.  The stages in
source order: parse both time strings, range-check both, resolve the
timezone, default the day list, store the rule in the index (line 80),
convert the day tags (line 91, which raises on an invalid tag, caught
at line 129 after the index was already mutated), then register the two
jobs with `replace_existing=True`. -/
def add_schedule (env : Env) (st : SchedState) (schedule_id : Str)
    (channel_id : Nat) (start_time end_time : Str) (slowmode_seconds : Int)
    (timezone : Str) (days? : Option (List Str)) (restore_seconds : Int) :
    Bool × SchedState :=
  match parseTime start_time, parseTime end_time with
  | some (sh, smin), some (eh, emin) =>
    if !(timeOk sh smin) then (false, st)
    else if !(timeOk eh emin) then (false, st)
    else if !(env.tzOk timezone) then (false, st)
    else
      let days := days?.getD allDays
      let data : ScheduleData :=
        ⟨channel_id, start_time, end_time, slowmode_seconds, timezone, days,
         restore_seconds⟩
      let st1 : SchedState :=
        { st with schedules := insertKey st.schedules schedule_id data }
      match daysToCron days with
      | none => (false, st1)
      | some dow =>
        let startJob : Job :=
          ⟨.enableSlowmode, ⟨sh, smin, dow, timezone⟩, channel_id,
           slowmode_seconds⟩
        let endJob : Job :=
          ⟨.restoreSlowmode, ⟨eh, emin, dow, timezone⟩, channel_id,
           restore_seconds⟩
        (true,
         { st1 with
            jobs := insertKey (insertKey st1.jobs (startKey schedule_id) startJob)
                      (endKey schedule_id) endJob })
  | _, _ => (false, st)

/-- The checks of `add_schedule` that run before any state mutation:
time parsing, range checks, timezone resolution. -/
def preStateChecksFail (env : Env) (start_time end_time timezone : Str) : Bool :=
  match parseTime start_time, parseTime end_time with
  | some (sh, smin), some (eh, emin) =>
    !(timeOk sh smin) || !(timeOk eh emin) || !(env.tzOk timezone)
  | _, _ => true

/-- The two individually-guarded `scheduler.remove_job` calls of
`remove_schedule` (scheduler.py lines 154-162): a failing call leaves
that job in the registry. -/
def removeJobs (env : Env) (jobs : List (Str × Job)) (schedule_id : Str) :
    List (Str × Job) :=
  let jobs1 := if env.removeFails (startKey schedule_id) then jobs
    else eraseKey jobs (startKey schedule_id)
  if env.removeFails (endKey schedule_id) then jobs1
  else eraseKey jobs1 (endKey schedule_id)

/-- `SlowmodeScheduler.remove_schedule` (scheduler.py lines 136-172).
Returns the boolean result, the new state, and the list of job keys
whose removal was attempted.  Each `scheduler.remove_job` call is
individually wrapped in try/except; a failing removal (switch
`env.removeFails`) leaves that job in place but neither stops the other
removal nor the deletion of the index entry. -/
def remove_schedule (env : Env) (st : SchedState) (schedule_id : Str) :
    Bool × SchedState × List Str :=
  if containsKey st.schedules schedule_id then
    (true,
     ⟨eraseKey st.schedules schedule_id, removeJobs env st.jobs schedule_id⟩,
     [startKey schedule_id, endKey schedule_id])
  else (false, st, [])

/-- `SlowmodeScheduler.get_guild_schedules` (scheduler.py lines
174-190): filter the rule index by the id prefix `f"{guild_id}_"`. -/
def get_guild_schedules (st : SchedState) (guild_id : Nat) :
    List (Str × ScheduleData) :=
  st.schedules.filter (fun p => List.isPrefixOf (natRepr guild_id ++ ['_']) p.1)

/-! ### Firing callbacks (scheduler.py lines 192-234) -/

/-- Log lines emitted by the two firing callbacks; the constructors
distinguish the branches of the source. -/
inductive LogMsg
  | infoEnabled (channel : Nat) (secs : Int)
  | errorEnableFailed (channel : Nat)
  | errorEnableExn (channel : Nat)
  | infoRestored (channel : Nat) (secs : Int)
  | errorRestoreFailed (channel : Nat)
  | errorRestoreExn (channel : Nat)
deriving DecidableEq

/-- `SlowmodeScheduler._enable_slowmode` (lines 192-207): dispatch to
`self.bot.set_channel_slowmode` when the attribute exists, else to the
module-level fallback; the whole body sits in try/except, so it logs
and returns `none` (no exception propagated) in every case. -/
def enable_slowmode (env : Env) (channel_id : Nat) (secs : Int) :
    Option Unit × List LogMsg :=
  let res :=
    match env.bot_set with
    | some f => f channel_id secs
    | none => env.global_set channel_id secs
  match res with
  | .ok true => (none, [.infoEnabled channel_id secs])
  | .ok false => (none, [.errorEnableFailed channel_id])
  | .exn => (none, [.errorEnableExn channel_id])

/-- `SlowmodeScheduler._restore_slowmode` (lines 222-234): calls
`self.bot.set_channel_slowmode` directly (an `AttributeError` when the
bot lacks it is caught like any other exception). -/
def restore_slowmode (env : Env) (channel_id : Nat) (secs : Int) :
    Option Unit × List LogMsg :=
  let res :=
    match env.bot_set with
    | some f => f channel_id secs
    | none => ExecResult.exn
  match res with
  | .ok true => (none, [.infoRestored channel_id secs])
  | .ok false => (none, [.errorRestoreFailed channel_id])
  | .exn => (none, [.errorRestoreExn channel_id])

/-- One firing of a registered job by the clock: look the job up and
run its callback.  Returns the state after the firing, the exception
(if any) that reaches the clock loop, and the log output. -/
def fireJob (env : Env) (st : SchedState) (key : Str) :
    SchedState × Option Unit × List LogMsg :=
  match lookupKey st.jobs key with
  | none => (st, none, [])
  | some j =>
    let out :=
      match j.func with
      | .enableSlowmode => enable_slowmode env j.args_channel j.args_seconds
      | .restoreSlowmode => restore_slowmode env j.args_channel j.args_seconds
    (st, out.1, out.2)

/-! ### Config store (config.py) -/

/-- One persisted schedule record, shaped as written by
`BotConfig.add_schedule` (config.py lines 93-102). -/
structure ConfigSchedule where
  channel_id : Nat
  start_time : Str
  end_time : Str
  slowmode_seconds : Int
  timezone : Str
  days : List Str
  restore_seconds : Int
  enabled : Bool
deriving DecidableEq

/-- The `"schedules"` table of the persisted config. -/
abbrev Config := List (Str × ConfigSchedule)

/-- `BotConfig.get_schedules` (config.py lines 68-78): all schedules
with the disabled ones filtered out. -/
def get_schedules (cfg : Config) : Config :=
  cfg.filter (fun p => p.2.enabled)

/-- `BotConfig.add_schedule` (config.py lines 80-106): store the record
under the id with `enabled=True`. -/
def config_add (cfg : Config) (schedule_id : Str) (channel_id : Nat)
    (start_time end_time : Str) (slowmode_seconds : Int) (timezone : Str)
    (days? : Option (List Str)) (restore_seconds : Int) : Config :=
  let days := days?.getD allDays
  insertKey cfg schedule_id
    ⟨channel_id, start_time, end_time, slowmode_seconds, timezone, days,
     restore_seconds, true⟩

/-- `BotConfig.remove_schedule` (config.py lines 112-126). -/
def config_remove (cfg : Config) (schedule_id : Str) : Bool × Config :=
  if containsKey cfg schedule_id then (true, eraseKey cfg schedule_id)
  else (false, cfg)

/-! ### Command front end (bot_simple.py) -/

/-- Day-argument parsing of the `add_schedule` command
(bot_simple.py lines 144-152): `"all"` expands to the seven tags, a
comma-separated list is split, stripped and lowercased, and any tag
outside the seven aborts the command before any state change. -/
def parseDaysArg (days : Str) : Option (List Str) :=
  if lowerStr days == strOf "all" then some allDays
  else
    let selected := (splitOnChar ',' days).map (fun d => lowerStr (stripWs d))
    if selected.all (fun d => weekdayTags.contains d) then some selected
    else none

/-- Restore-argument resolution of the `add_schedule` command
(bot_simple.py lines 154-161): `"current"` reads the channel's present
`slowmode_delay`; otherwise `int(...)` is attempted and on
`ValueError`/`TypeError` the code falls back to the channel's present
value. -/
def resolveRestore (restoreArg : Str) (channel_slowmode_delay : Int) : Int :=
  if restoreArg == strOf "current" then channel_slowmode_delay
  else
    match parsePyInt restoreArg with
    | some v => v
    | none => channel_slowmode_delay

/-- Lexicographic comparison of strings by code point, as Python's
`sorted` uses on `selected_days`. -/
def strLt : Str → Str → Bool
  | [], [] => false
  | [], _ :: _ => true
  | _ :: _, [] => false
  | a :: as, b :: bs =>
    if a.toNat < b.toNat then true
    else if b.toNat < a.toNat then false
    else strLt as bs

/-- Insertion into a sorted list of strings. -/
def sortedInsert (x : Str) : List Str → List Str
  | [] => [x]
  | y :: ys => if strLt y x then y :: sortedInsert x ys else x :: y :: ys

/-- Python `sorted` on a list of strings (insertion sort). -/
def sortStrs : List Str → List Str
  | [] => []
  | x :: xs => sortedInsert x (sortStrs xs)

/-- `schedule_id = f"{ctx.guild.id}_{channel.id}_{start_time}_{end_time}_{days_str}"`
with `days_str = ",".join(sorted(selected_days))` (bot_simple.py lines
164-165). -/
def mkScheduleId (guild_id channel_id : Nat) (start_time end_time : Str)
    (days : List Str) : Str :=
  natRepr guild_id ++ '_' :: natRepr channel_id ++ '_' :: start_time ++
    '_' :: end_time ++ '_' :: joinChar ',' (sortStrs days)

/-- The `add_schedule` command body (bot_simple.py lines 138-209):
validate days, resolve the restore value from the channel's current
slowmode, derive the id, add to the scheduler, and on success mirror
the rule into the config store.  Returns whether the success reply was
sent, the new config store and the new scheduler state. -/
def bot_add_schedule (env : Env) (cfg : Config) (sched : SchedState)
    (guild_id channel_id : Nat) (channel_slowmode_delay : Int)
    (start_time end_time : Str) (slowmode_seconds : Int)
    (daysArg restoreArg : Str) : Bool × Config × SchedState :=
  match parseDaysArg daysArg with
  | none => (false, cfg, sched)
  | some selected_days =>
    let restore_val := resolveRestore restoreArg channel_slowmode_delay
    let sid := mkScheduleId guild_id channel_id start_time end_time selected_days
    let r := add_schedule env sched sid channel_id start_time end_time
      slowmode_seconds (strOf "UTC") (some selected_days) restore_val
    if r.1 then
      (true,
       config_add cfg sid channel_id start_time end_time slowmode_seconds
         (strOf "UTC") (some selected_days) restore_val,
       r.2)
    else (false, cfg, r.2)

/-- Schedule reload in `on_ready` (bot_simple.py lines 43-53): every
schedule surviving `get_schedules` is re-added to the scheduler — note
the call passes neither `days` nor `restore_seconds`, so those take the
scheduler's defaults. -/
def on_ready_load (env : Env) (cfg : Config) (sched : SchedState) : SchedState :=
  (get_schedules cfg).foldl
    (fun s p =>
      (add_schedule env s p.1 p.2.channel_id p.2.start_time p.2.end_time
        p.2.slowmode_seconds p.2.timezone none 0).2)
    sched

/-- The triple match of the `remove_schedule` command
(bot_simple.py lines 260-262). -/
def matchTriple (channel_id : Nat) (start_time end_time : Str)
    (p : Str × ConfigSchedule) : Bool :=
  p.2.channel_id == channel_id && p.2.start_time == start_time &&
    p.2.end_time == end_time

/-- The ids the `remove_schedule` command collects as matches
(bot_simple.py lines 258-263), drawn from the enabled schedules of a
freshly loaded config. -/
def matchingIds (cfg : Config) (channel_id : Nat) (start_time end_time : Str) :
    List Str :=
  ((get_schedules cfg).filter (matchTriple channel_id start_time end_time)).map
    Prod.fst

/-- The removal loop of the `remove_schedule` command (bot_simple.py
lines 270-279): for each matching id, remove from the scheduler, and
only when that reported success also remove from the config store and
count it. -/
def removeLoop (env : Env) : List Str → Config × SchedState × Nat →
    Config × SchedState × Nat
  | [], acc => acc
  | sid :: rest, acc =>
    let r := remove_schedule env acc.2.1 sid
    removeLoop env rest
      (if r.1 then ((config_remove acc.1 sid).2, r.2.1, acc.2.2 + 1)
       else (acc.1, r.2.1, acc.2.2))

/-- The `remove_schedule` command body (bot_simple.py lines 244-295):
find all enabled schedules matching the `(channel, start, end)` triple,
remove each from the scheduler and — only when that reported success —
from the config store; report success iff at least one was removed.
Returns (success, config store, scheduler state, removed_count). -/
def bot_remove_schedule (env : Env) (cfg : Config) (sched : SchedState)
    (channel_id : Nat) (start_time end_time : Str) :
    Bool × Config × SchedState × Nat :=
  let matching := matchingIds cfg channel_id start_time end_time
  if matching.isEmpty then (false, cfg, sched, 0)
  else
    let res := removeLoop env matching (cfg, sched, 0)
    (decide (0 < res.2.2), res.1, res.2.1, res.2.2)

/-! ### Concrete states for witnesses -/

/-- A standard collaborator environment: UTC is the only known
timezone, the bot exposes a setter that succeeds, job removal never
fails. -/
def envU : Env :=
  { tzOk := fun s => s == strOf "UTC"
    bot_set := some (fun _ _ => .ok true)
    global_set := fun _ _ => .exn
    removeFails := fun _ => false }

/-- The empty scheduler state. -/
def st0 : SchedState := ⟨[], []⟩

/-! ### Helper lemmas -/

lemma idxFrom_eq_none {l : List Str} {d : Str} (hd : d ∉ l) :
    ∀ i, idxFrom l d i = none := by
  induction l with
  | nil => intro i; rfl
  | cons x xs ih =>
    intro i
    have hxd : (x == d) = false := by
      simp only [beq_eq_false_iff_ne]
      intro h; exact hd (h ▸ List.mem_cons_self x xs)
    have hmem : d ∉ xs := fun h => hd (List.mem_cons_of_mem x h)
    simp only [idxFrom, hxd, Bool.false_eq_true, if_false]
    exact ih hmem (i + 1)

lemma indexOfDay_eq_none {d : Str} (hd : d ∉ weekdayTags) :
    indexOfDay d = none :=
  idxFrom_eq_none hd 0

lemma mapIndex_eq_none {days : List Str} {d : Str} (hmem : d ∈ days)
    (hd : indexOfDay d = none) : mapIndex days = none := by
  induction days with
  | nil => cases hmem
  | cons x xs ih =>
    rcases List.mem_cons.mp hmem with h | h
    · subst h
      simp only [mapIndex, hd]
    · simp only [mapIndex, ih h]
      cases indexOfDay x <;> rfl

lemma add_schedule_fails_of_daysToCron_none (env : Env) (st : SchedState)
    (sid : Str) (cid : Nat) (stime etime : Str) (sm : Int) (tz : Str)
    (days : List Str) (rs : Int) (hd : daysToCron days = none) :
    (add_schedule env st sid cid stime etime sm tz (some days) rs).1 = false := by
  unfold add_schedule
  cases hp : parseTime stime with
  | none => rfl
  | some p =>
    cases hq : parseTime etime with
    | none => rfl
    | some q =>
      obtain ⟨sh, smin⟩ := p
      obtain ⟨eh, emin⟩ := q
      by_cases h1 : timeOk sh smin
      · by_cases h2 : timeOk eh emin
        · by_cases h3 : env.tzOk tz
          · simp [h1, h2, h3, hd]
          · simp [h1, h2, h3]
        · simp [h1, h2]
      · simp [h1]

/-! ### C10 -/

/-- C10: `remove_schedule` on an id absent from the rule index returns
`False`, leaves the rule index and the job registry untouched, and
attempts no job removal for either boundary key. -/
theorem c10_remove_absent_noop (env : Env) (st : SchedState) (sid : Str)
    (h : containsKey st.schedules sid = false) :
    remove_schedule env st sid = (false, st, []) := by
  simp [remove_schedule, h]

theorem c10_remove_absent_noop_witness :
    containsKey st0.schedules (strOf "absent") = false ∧
    remove_schedule envU st0 (strOf "absent") = (false, st0, []) :=
  ⟨by decide, c10_remove_absent_noop envU st0 (strOf "absent") (by decide)⟩

/-! ### C4 -/

/-- C4: when the id is present, `remove_schedule` reports success and
deletes the index entry no matter which of the two job removals fail
(the environment's `removeFails` switch is universally quantified), and
removal is attempted for both boundary keys. -/
theorem c4_remove_best_effort (env : Env) (st : SchedState) (sid : Str)
    (h : containsKey st.schedules sid = true) :
    (remove_schedule env st sid).1 = true ∧
    (remove_schedule env st sid).2.1.schedules = eraseKey st.schedules sid ∧
    (remove_schedule env st sid).2.2 = [startKey sid, endKey sid] := by
  simp [remove_schedule, h]

/-- An environment in which every `remove_job` call raises. -/
def envAllRemovalsFail : Env := { envU with removeFails := fun _ => true }

/-- A one-rule scheduler state used by witnesses. -/
def stOne : SchedState :=
  ⟨[(strOf "g_1_x", ⟨1, strOf "09:00", strOf "17:00", 30, strOf "UTC",
      allDays, 0⟩)],
   [(startKey (strOf "g_1_x"),
     ⟨.enableSlowmode, ⟨9, 0, strOf "0", strOf "UTC"⟩, 1, 30⟩),
    (endKey (strOf "g_1_x"),
     ⟨.restoreSlowmode, ⟨17, 0, strOf "0", strOf "UTC"⟩, 1, 0⟩)]⟩

theorem c4_remove_best_effort_witness :
    containsKey stOne.schedules (strOf "g_1_x") = true ∧
    ((remove_schedule envAllRemovalsFail stOne (strOf "g_1_x")).1 = true ∧
     (remove_schedule envAllRemovalsFail stOne (strOf "g_1_x")).2.1.schedules =
       eraseKey stOne.schedules (strOf "g_1_x") ∧
     (remove_schedule envAllRemovalsFail stOne (strOf "g_1_x")).2.2 =
       [startKey (strOf "g_1_x"), endKey (strOf "g_1_x")]) :=
  ⟨by decide,
   c4_remove_best_effort envAllRemovalsFail stOne (strOf "g_1_x") (by decide)⟩

/-! ### C3 -/

lemma enable_slowmode_no_exn (env : Env) (ch : Nat) (secs : Int) :
    (enable_slowmode env ch secs).1 = none := by
  unfold enable_slowmode
  cases hb : env.bot_set with
  | none => cases hg : env.global_set ch secs with
    | ok b => cases b <;> simp [hg]
    | exn => simp [hg]
  | some f => cases hf : f ch secs with
    | ok b => cases b <;> simp [hf]
    | exn => simp [hf]

lemma restore_slowmode_no_exn (env : Env) (ch : Nat) (secs : Int) :
    (restore_slowmode env ch secs).1 = none := by
  unfold restore_slowmode
  cases hb : env.bot_set with
  | none => simp
  | some f => cases hf : f ch secs with
    | ok b => cases b <;> simp [hf]
    | exn => simp [hf]

/-- C3: a firing of either callback never mutates the scheduler state
(the rule index entry stays, both jobs stay armed) and never lets an
exception reach the clock loop, for every outcome of the external
slowmode setter — `False` results, raised exceptions, and even a
missing setter attribute. -/
theorem c3_firing_absorbs (env : Env) (st : SchedState) (key : Str) :
    (fireJob env st key).1 = st ∧ (fireJob env st key).2.1 = none := by
  unfold fireJob
  cases h : lookupKey st.jobs key with
  | none => exact ⟨rfl, rfl⟩
  | some j =>
    cases hjf : j.func <;>
      simp [hjf, enable_slowmode_no_exn, restore_slowmode_no_exn]

/-! ### C1 -/

/-- C1 counterexample: calling `add_schedule` with the invalid day tag
"xyz" (valid times, valid timezone) fails as the claim says, but the
rule index is left mutated: the entry was stored before the day-tag
conversion raised, so state is not unchanged. -/
theorem c1_cex :
    (add_schedule envU st0 (strOf "1_2_x") 2 (strOf "09:00") (strOf "17:00")
        30 (strOf "UTC") (some [strOf "xyz"]) 0).1 = false
    ∧ (add_schedule envU st0 (strOf "1_2_x") 2 (strOf "09:00") (strOf "17:00")
        30 (strOf "UTC") (some [strOf "xyz"]) 0).2.schedules =
      [(strOf "1_2_x",
        ⟨2, strOf "09:00", strOf "17:00", 30, strOf "UTC", [strOf "xyz"], 0⟩)]
    ∧ (add_schedule envU st0 (strOf "1_2_x") 2 (strOf "09:00") (strOf "17:00")
        30 (strOf "UTC") (some [strOf "xyz"]) 0).2.jobs = [] := by
  decide

/-- C1 (amended): invalid input always makes `add_schedule` fail and
never registers a job; when the failure is a malformed or out-of-range
time (or an unknown timezone) the whole state is unchanged, but a
failure at the day-tag stage happens after the rule index entry was
already stored. -/
theorem c1_amended (env : Env) (st : SchedState) (sid : Str) (cid : Nat)
    (stime etime : Str) (sm : Int) (tz : Str) (days : List Str) (rs : Int)
    (hbad : preStateChecksFail env stime etime tz = true ∨
      daysToCron days = none) :
    (add_schedule env st sid cid stime etime sm tz (some days) rs).1 = false ∧
    (add_schedule env st sid cid stime etime sm tz (some days) rs).2.jobs =
      st.jobs ∧
    (preStateChecksFail env stime etime tz = true →
      (add_schedule env st sid cid stime etime sm tz (some days) rs).2 = st) := by
  unfold add_schedule preStateChecksFail at *
  cases hp : parseTime stime with
  | none => simp [hp]
  | some p =>
    cases hq : parseTime etime with
    | none => simp [hp, hq]
    | some q =>
      obtain ⟨sh, smin⟩ := p
      obtain ⟨eh, emin⟩ := q
      simp only [hp, hq] at hbad ⊢
      by_cases h1 : timeOk sh smin
      · by_cases h2 : timeOk eh emin
        · by_cases h3 : env.tzOk tz
          · have hd : daysToCron days = none := by
              rcases hbad with hb | hb
              · simp [h1, h2, h3] at hb
              · exact hb
            simp [h1, h2, h3, hd]
          · simp [h1, h2, h3]
        · simp [h1, h2]
      · simp [h1]

theorem c1_amended_witness :
    (preStateChecksFail envU (strOf "25:00") (strOf "17:00") (strOf "UTC") =
        true ∨ daysToCron allDays = none)
    ∧ ((add_schedule envU st0 (strOf "w") 1 (strOf "25:00") (strOf "17:00") 30
          (strOf "UTC") (some allDays) 0).1 = false ∧
       (add_schedule envU st0 (strOf "w") 1 (strOf "25:00") (strOf "17:00") 30
          (strOf "UTC") (some allDays) 0).2.jobs = st0.jobs ∧
       (preStateChecksFail envU (strOf "25:00") (strOf "17:00") (strOf "UTC") =
          true →
        (add_schedule envU st0 (strOf "w") 1 (strOf "25:00") (strOf "17:00") 30
          (strOf "UTC") (some allDays) 0).2 = st0)) :=
  ⟨Or.inl (by decide),
   c1_amended envU st0 (strOf "w") 1 (strOf "25:00") (strOf "17:00") 30
     (strOf "UTC") allDays 0 (Or.inl (by decide))⟩

/-! ### C5 -/

/-- C5 counterexample: the full `add_schedule` command with restore
argument "abc" (not interpretable as an int) while the channel's
current slowmode is 5 succeeds and stores restore 5 — the fallback is
the channel's current value, not 0. -/
theorem c5_cex :
    (bot_add_schedule envU [] st0 1 2 5 (strOf "09:00") (strOf "17:00") 30
        (strOf "all") (strOf "abc")).1 = true
    ∧ ((bot_add_schedule envU [] st0 1 2 5 (strOf "09:00") (strOf "17:00") 30
        (strOf "all") (strOf "abc")).2.1.map (fun p => p.2.restore_seconds)) =
      [5]
    ∧ (5 : Int) ≠ 0 := by
  decide

/-- C5 (amended): the restore value is resolved exactly once at
add-time from the channel's present slowmode; when the restore argument
is "current" or cannot be interpreted as an integer, the stored value
falls back to the channel's present value (not to 0), without aborting
the add. -/
theorem c5_amended (restoreArg : Str) (delay : Int)
    (h : parsePyInt restoreArg = none) :
    resolveRestore restoreArg delay = delay := by
  by_cases hc : (restoreArg == strOf "current") = true
  · simp [resolveRestore, hc]
  · simp [resolveRestore, hc, h]

theorem c5_amended_witness :
    parsePyInt (strOf "abc") = none ∧
    resolveRestore (strOf "abc") 7 = 7 :=
  ⟨by decide, c5_amended (strOf "abc") 7 (by decide)⟩

/-! ### C8 -/

/-- C8: the weekday tags map to cron indices under exactly the mapping
mon=0, tue=1, wed=2, thu=3, fri=4, sat=5, sun=6, any other tag has no
index, and an `add_schedule` call whose day list contains such a tag
fails. -/
theorem c8_weekday_mapping (env : Env) (st : SchedState) (sid : Str)
    (cid : Nat) (stime etime : Str) (sm : Int) (tz : Str) (rs : Int)
    (days : List Str) (d : Str) (hmem : d ∈ days) (hbad : d ∉ weekdayTags) :
    weekdayTags.map indexOfDay =
      [some 0, some 1, some 2, some 3, some 4, some 5, some 6]
    ∧ indexOfDay d = none
    ∧ (add_schedule env st sid cid stime etime sm tz (some days) rs).1 =
      false := by
  have hidx : indexOfDay d = none := indexOfDay_eq_none hbad
  refine ⟨by decide, hidx, ?_⟩
  have hcron : daysToCron days = none := by
    unfold daysToCron
    rw [mapIndex_eq_none hmem hidx]
    rfl
  exact add_schedule_fails_of_daysToCron_none env st sid cid stime etime sm tz
    days rs hcron

/-! ### Decimal-representation lemmas for the guild-id prefix -/

lemma natReprCore_eq_digits (n : Nat) :
    ∀ fuel acc, n ≤ fuel → 0 < n →
      natReprCore fuel n acc =
        ((Nat.digits 10 n).map Nat.digitChar).reverse ++ acc := by
  induction n using Nat.strong_induction_on with
  | _ n ih =>
    intro fuel acc hfuel hpos
    match fuel with
    | 0 => omega
    | fuel + 1 =>
      rw [Nat.digits_def' (by norm_num : (1 : Nat) < 10) hpos]
      by_cases h : n / 10 = 0
      · rw [natReprCore, if_pos h, h, Nat.digits_zero]
        simp
      · have hdiv : n / 10 < n := Nat.div_lt_self hpos (by norm_num)
        rw [natReprCore, if_neg h,
          ih (n / 10) hdiv fuel _ (by omega) (Nat.pos_of_ne_zero h)]
        simp

lemma natRepr_eq_digits (n : Nat) (h : 0 < n) :
    natRepr n = ((Nat.digits 10 n).map Nat.digitChar).reverse := by
  have hc := natReprCore_eq_digits n (n + 1) [] (by omega) h
  simpa [natRepr] using hc

lemma digitChar_ne_underscore {d : Nat} (hd : d < 10) :
    Nat.digitChar d ≠ '_' := by
  interval_cases d <;> decide

lemma digitChar_inj_lt {d e : Nat} (hd : d < 10) (he : e < 10) :
    Nat.digitChar d = Nat.digitChar e → d = e := by
  interval_cases d <;> interval_cases e <;> decide

lemma natRepr_ne_underscore (n : Nat) : ∀ c ∈ natRepr n, c ≠ '_' := by
  rcases Nat.eq_zero_or_pos n with h | h
  · subst h
    intro c hc
    have : c = '0' := by simpa [natRepr, natReprCore] using hc
    subst this
    decide
  · rw [natRepr_eq_digits n h]
    intro c hc
    rw [List.mem_reverse, List.mem_map] at hc
    obtain ⟨d, hd, rfl⟩ := hc
    exact digitChar_ne_underscore (Nat.digits_lt_base (by norm_num) hd)

lemma map_digitChar_inj : ∀ {l1 l2 : List Nat}, (∀ d ∈ l1, d < 10) →
    (∀ d ∈ l2, d < 10) → l1.map Nat.digitChar = l2.map Nat.digitChar →
    l1 = l2 := by
  intro l1
  induction l1 with
  | nil =>
    intro l2 _ _ h
    cases l2 with
    | nil => rfl
    | cons b bs => simp at h
  | cons a as ih =>
    intro l2 h1 h2 h
    cases l2 with
    | nil => simp at h
    | cons b bs =>
      simp only [List.map_cons, List.cons.injEq] at h
      obtain ⟨hab, ht⟩ := h
      have hd : a = b := digitChar_inj_lt (h1 a (List.mem_cons_self a as))
        (h2 b (List.mem_cons_self b bs)) hab
      rw [hd, ih (fun d hm => h1 d (List.mem_cons_of_mem a hm))
        (fun d hm => h2 d (List.mem_cons_of_mem b hm)) ht]

lemma natRepr_inj {a b : Nat} (h : natRepr a = natRepr b) : a = b := by
  rcases Nat.eq_zero_or_pos a with ha | ha <;>
    rcases Nat.eq_zero_or_pos b with hb | hb
  · omega
  · subst ha
    rw [natRepr_eq_digits b hb] at h
    have h' : (Nat.digits 10 b).map Nat.digitChar = [Nat.digitChar 0] := by
      have := congrArg List.reverse h
      simpa [natRepr, natReprCore] using this.symm
    have hdig : Nat.digits 10 b = [0] :=
      map_digitChar_inj
        (fun d hd => Nat.digits_lt_base (by norm_num) hd)
        (by intro d hd; simp at hd; omega) h'
    have hb0 : b = 0 := by
      have hofd := Nat.ofDigits_digits 10 b
      rw [hdig] at hofd
      simpa [Nat.ofDigits_singleton] using hofd.symm
    omega
  · subst hb
    rw [natRepr_eq_digits a ha] at h
    have h' : (Nat.digits 10 a).map Nat.digitChar = [Nat.digitChar 0] := by
      have := congrArg List.reverse h
      simpa [natRepr, natReprCore] using this
    have hdig : Nat.digits 10 a = [0] :=
      map_digitChar_inj
        (fun d hd => Nat.digits_lt_base (by norm_num) hd)
        (by intro d hd; simp at hd; omega) h'
    have ha0 : a = 0 := by
      have hofd := Nat.ofDigits_digits 10 a
      rw [hdig] at hofd
      simpa [Nat.ofDigits_singleton] using hofd.symm
    omega
  · rw [natRepr_eq_digits a ha, natRepr_eq_digits b hb] at h
    have h' := List.reverse_injective h
    exact Nat.digits_inj_iff.mp
      (map_digitChar_inj
        (fun d hd => Nat.digits_lt_base (by norm_num) hd)
        (fun d hd => Nat.digits_lt_base (by norm_num) hd) h')

lemma sep_append_inj : ∀ (xs ys t r : Str), (∀ c ∈ xs, c ≠ '_') →
    (∀ c ∈ ys, c ≠ '_') → xs ++ '_' :: t = ys ++ '_' :: r → xs = ys := by
  intro xs
  induction xs with
  | nil =>
    intro ys t r _ hy h
    cases ys with
    | nil => rfl
    | cons y ys' =>
      simp only [List.nil_append, List.cons_append, List.cons.injEq] at h
      exact absurd h.1.symm (hy y (List.mem_cons_self y ys'))
  | cons x xs' ih =>
    intro ys t r hx hy h
    cases ys with
    | nil =>
      simp only [List.cons_append, List.nil_append, List.cons.injEq] at h
      exact absurd h.1 (hx x (List.mem_cons_self x xs'))
    | cons y ys' =>
      simp only [List.cons_append, List.cons.injEq] at h
      obtain ⟨hxy, ht⟩ := h
      rw [hxy, ih ys' t r (fun c hc => hx c (List.mem_cons_of_mem x hc))
        (fun c hc => hy c (List.mem_cons_of_mem y hc)) ht]

lemma isPrefixOf_exists : ∀ {l₁ l₂ : Str}, List.isPrefixOf l₁ l₂ = true →
    ∃ t, l₁ ++ t = l₂ := by
  intro l₁
  induction l₁ with
  | nil => intro l₂ _; exact ⟨l₂, rfl⟩
  | cons a as ih =>
    intro l₂ h
    cases l₂ with
    | nil => simp [List.isPrefixOf] at h
    | cons b bs =>
      simp only [List.isPrefixOf, Bool.and_eq_true, beq_iff_eq] at h
      obtain ⟨hab, h2⟩ := h
      obtain ⟨t, ht⟩ := ih h2
      exact ⟨t, by rw [List.cons_append, ht, hab]⟩

/-- The guild-prefix test of `get_guild_schedules` identifies the owner
exactly: `f"{g}_"` is a prefix of `f"{g'}_{rest}"` only when `g = g'`,
because decimal representations contain no underscore. -/
lemma guild_prefix_eq {g g' : Nat} {rest : Str}
    (h : List.isPrefixOf (natRepr g ++ ['_']) (natRepr g' ++ '_' :: rest) =
      true) : g = g' := by
  obtain ⟨t, ht⟩ := isPrefixOf_exists h
  rw [List.append_assoc, List.cons_append, List.nil_append] at ht
  exact natRepr_inj (sep_append_inj (natRepr g) (natRepr g') t rest
    (natRepr_ne_underscore g) (natRepr_ne_underscore g') ht)

/-! ### C2 -/

/-- A persisted config store holding one enabled schedule with a
non-default day-set (`["mon"]`) and a non-default restore value (5). -/
def cfgReload : Config :=
  [(strOf "1_2_09:00_17:00_mon",
    ⟨2, strOf "09:00", strOf "17:00", 30, strOf "UTC", [strOf "mon"], 5, true⟩)]

/-- C2 (code bug): reloading the persisted store at restart does NOT
rebuild the index identically.  `on_ready` (bot_simple.py lines 45-52)
passes neither `days` nor `restore_seconds` to
`scheduler.add_schedule`, so the re-armed rule carries the default
all-seven day-set and restore value 0 instead of the persisted
`["mon"]` and 5. -/
theorem c2_reload_drops_fields :
    (on_ready_load envU cfgReload st0).schedules =
      [(strOf "1_2_09:00_17:00_mon",
        ⟨2, strOf "09:00", strOf "17:00", 30, strOf "UTC", allDays, 0⟩)]
    ∧ allDays ≠ [strOf "mon"]
    ∧ (0 : Int) ≠ 5 := by
  decide

/-! ### C7 -/

lemma countKey_map_replace {α : Type} (l : List (Str × α)) (k : Str) (v : α) :
    countKey (l.map (fun p => if p.1 == k then (k, v) else p)) k =
      countKey l k := by
  induction l with
  | nil => rfl
  | cons p ps ih =>
    by_cases hpk : (p.1 == k) = true
    · simp only [countKey, List.map_cons, List.filter_cons, hpk, if_true,
        beq_self_eq_true, List.length_cons] at ih ⊢
      omega
    · simp only [Bool.not_eq_true] at hpk
      simp only [countKey, List.map_cons, List.filter_cons, hpk,
        Bool.false_eq_true, if_false] at ih ⊢
      exact ih

lemma countKey_append_single {α : Type} (l : List (Str × α)) (k : Str) (v : α) :
    countKey (l ++ [(k, v)]) k = countKey l k + 1 := by
  simp [countKey, List.filter_append]

lemma countKey_insertKey_self {α : Type} (l : List (Str × α)) (k : Str) (v : α) :
    countKey (insertKey l k v) k =
      if containsKey l k then countKey l k else countKey l k + 1 := by
  unfold insertKey
  by_cases hc : containsKey l k
  · simp only [hc, if_true]
    exact countKey_map_replace l k v
  · rw [Bool.not_eq_true] at hc
    simp only [hc, Bool.false_eq_true, if_false]
    exact countKey_append_single l k v

lemma countKey_map_replace_ne {α : Type} (l : List (Str × α)) (k k' : Str)
    (v : α) (hne : k' ≠ k) :
    countKey (l.map (fun p => if p.1 == k then (k, v) else p)) k' =
      countKey l k' := by
  have hkk : (k == k') = false := by
    simp only [beq_eq_false_iff_ne]
    exact fun h => hne h.symm
  induction l with
  | nil => rfl
  | cons p ps ih =>
    by_cases hpk : (p.1 == k) = true
    · have hp : p.1 = k := by simpa using hpk
      have hpk' : (p.1 == k') = false := by rw [hp]; exact hkk
      simp only [countKey, List.map_cons, List.filter_cons, hpk, if_true,
        hkk, hpk', Bool.false_eq_true, if_false] at ih ⊢
      exact ih
    · simp only [Bool.not_eq_true] at hpk
      simp only [countKey, List.map_cons, List.filter_cons, hpk,
        Bool.false_eq_true, if_false] at ih ⊢
      by_cases hpq : (p.1 == k') = true
      · simp only [hpq, if_true, List.length_cons] at ih ⊢
        omega
      · simp only [Bool.not_eq_true] at hpq
        simp only [hpq, Bool.false_eq_true, if_false] at ih ⊢
        exact ih

lemma countKey_insertKey_ne {α : Type} (l : List (Str × α)) (k k' : Str)
    (v : α) (hne : k' ≠ k) :
    countKey (insertKey l k v) k' = countKey l k' := by
  have hkk : (k == k') = false := by
    simp only [beq_eq_false_iff_ne]
    exact fun h => hne h.symm
  unfold insertKey
  by_cases hc : containsKey l k
  · simp only [hc, if_true]
    exact countKey_map_replace_ne l k k' v hne
  · rw [Bool.not_eq_true] at hc
    simp only [hc, Bool.false_eq_true, if_false]
    simp [countKey, List.filter_append, hkk]

lemma containsKey_iff_countKey_pos {α : Type} (l : List (Str × α)) (k : Str) :
    containsKey l k = true ↔ 0 < countKey l k := by
  constructor
  · intro h
    obtain ⟨p, hp, hpk⟩ := List.any_eq_true.mp h
    have hmem : p ∈ l.filter (fun p => p.1 == k) :=
      List.mem_filter.mpr ⟨hp, hpk⟩
    exact List.length_pos.mpr (List.ne_nil_of_mem hmem)
  · intro h
    obtain ⟨p, hp⟩ := List.exists_mem_of_length_pos h
    obtain ⟨hmem, hpk⟩ := List.mem_filter.mp hp
    exact List.any_eq_true.mpr ⟨p, hmem, hpk⟩

lemma countKey_insertKey_le_one {α : Type} (l : List (Str × α)) (k : Str)
    (v : α) (h : countKey l k ≤ 1) : countKey (insertKey l k v) k = 1 := by
  rw [countKey_insertKey_self]
  by_cases hc : containsKey l k
  · have := (containsKey_iff_countKey_pos l k).mp hc
    simp only [hc, if_true]
    omega
  · have hz : countKey l k = 0 := by
      by_contra hnz
      exact hc ((containsKey_iff_countKey_pos l k).mpr
        (Nat.pos_of_ne_zero hnz))
    simp [hc, hz]

lemma lookupKey_append_single {α : Type} (l : List (Str × α)) (k : Str)
    (v : α) (hc : containsKey l k = false) :
    lookupKey (l ++ [(k, v)]) k = some v := by
  induction l with
  | nil => simp [lookupKey, List.find?]
  | cons p ps ih =>
    rw [containsKey, List.any_cons, Bool.or_eq_false_iff] at hc
    obtain ⟨hpk, hps⟩ := hc
    simp only [lookupKey, List.cons_append, List.find?, hpk] at ih ⊢
    exact ih hps

lemma lookupKey_map_replace {α : Type} (l : List (Str × α)) (k : Str) (v : α)
    (hc : containsKey l k = true) :
    lookupKey (l.map (fun p => if p.1 == k then (k, v) else p)) k = some v := by
  induction l with
  | nil => cases hc
  | cons p ps ih =>
    by_cases hpk : (p.1 == k) = true
    · simp [lookupKey, List.find?, hpk]
    · simp only [Bool.not_eq_true] at hpk
      rw [containsKey, List.any_cons, hpk, Bool.false_or] at hc
      simp only [lookupKey, List.map_cons, hpk, Bool.false_eq_true, if_false,
        List.find?] at ih ⊢
      exact ih hc

lemma lookupKey_insertKey_self {α : Type} (l : List (Str × α)) (k : Str)
    (v : α) : lookupKey (insertKey l k v) k = some v := by
  unfold insertKey
  by_cases hc : containsKey l k
  · simp only [hc, if_true]
    exact lookupKey_map_replace l k v hc
  · simp only [hc, Bool.false_eq_true, if_false]
    exact lookupKey_append_single l k v (by simpa using hc)

lemma startKey_ne_endKey (sid : Str) : startKey sid ≠ endKey sid := by
  unfold startKey endKey
  intro h
  have h2 : strOf "_start" = strOf "_end" := List.append_cancel_left h
  exact absurd h2 (by decide)

/-- The state produced by a successful `add_schedule`: the index entry
stored under the id and the two jobs stored under the two boundary
keys, with `replace_existing=True` semantics. -/
lemma add_schedule_success_shape (env : Env) (st : SchedState) (sid : Str)
    (cid : Nat) (stime etime : Str) (sm : Int) (tz : Str)
    (days? : Option (List Str)) (rs : Int)
    (h : (add_schedule env st sid cid stime etime sm tz days? rs).1 = true) :
    ∃ sh smin eh emin dow,
      (add_schedule env st sid cid stime etime sm tz days? rs).2 =
        { schedules := insertKey st.schedules sid
            ⟨cid, stime, etime, sm, tz, days?.getD allDays, rs⟩
          jobs := insertKey
              (insertKey st.jobs (startKey sid)
                ⟨.enableSlowmode, ⟨sh, smin, dow, tz⟩, cid, sm⟩)
              (endKey sid)
              ⟨.restoreSlowmode, ⟨eh, emin, dow, tz⟩, cid, rs⟩ } := by
  unfold add_schedule at h ⊢
  cases hp : parseTime stime with
  | none => rw [hp] at h; cases h
  | some p =>
    cases hq : parseTime etime with
    | none => rw [hp, hq] at h; cases h
    | some q =>
      obtain ⟨sh, smin⟩ := p
      obtain ⟨eh, emin⟩ := q
      rw [hp, hq] at h
      by_cases h1 : timeOk sh smin
      · by_cases h2 : timeOk eh emin
        · by_cases h3 : env.tzOk tz
          · cases hd : daysToCron (days?.getD allDays) with
            | none => simp [h1, h2, h3, hd] at h
            | some dow =>
              refine ⟨sh, smin, eh, emin, dow, ?_⟩
              simp [h1, h2, h3, hd]
          · simp [h1, h2, h3] at h
        · simp [h1, h2] at h
      · simp [h1] at h

/-- C7: calling `add_schedule` twice with the same id replaces rather
than duplicates — afterwards the rule index holds exactly one entry for
the id (and it is the second call's data), and the job registry holds
exactly one start job and one end job for the id. -/
theorem c7_readd_replaces (env : Env) (st : SchedState) (sid : Str)
    (cid cid' : Nat) (stime etime stime' etime' : Str) (sm sm' : Int)
    (tz tz' : Str) (days days' : Option (List Str)) (rs rs' : Int)
    (h1 : countKey st.schedules sid ≤ 1)
    (h2 : countKey st.jobs (startKey sid) ≤ 1)
    (h3 : countKey st.jobs (endKey sid) ≤ 1)
    (hadd1 : (add_schedule env st sid cid stime etime sm tz days rs).1 = true)
    (hadd2 : (add_schedule env
        (add_schedule env st sid cid stime etime sm tz days rs).2
        sid cid' stime' etime' sm' tz' days' rs').1 = true) :
    countKey (add_schedule env
        (add_schedule env st sid cid stime etime sm tz days rs).2
        sid cid' stime' etime' sm' tz' days' rs').2.schedules sid = 1
    ∧ countKey (add_schedule env
        (add_schedule env st sid cid stime etime sm tz days rs).2
        sid cid' stime' etime' sm' tz' days' rs').2.jobs (startKey sid) = 1
    ∧ countKey (add_schedule env
        (add_schedule env st sid cid stime etime sm tz days rs).2
        sid cid' stime' etime' sm' tz' days' rs').2.jobs (endKey sid) = 1
    ∧ lookupKey (add_schedule env
        (add_schedule env st sid cid stime etime sm tz days rs).2
        sid cid' stime' etime' sm' tz' days' rs').2.schedules sid =
      some ⟨cid', stime', etime', sm', tz', days'.getD allDays, rs'⟩ := by
  obtain ⟨sh1, sm1, eh1, em1, dow1, hshape1⟩ :=
    add_schedule_success_shape env st sid cid stime etime sm tz days rs hadd1
  obtain ⟨sh2, sm2, eh2, em2, dow2, hshape2⟩ :=
    add_schedule_success_shape env
      (add_schedule env st sid cid stime etime sm tz days rs).2
      sid cid' stime' etime' sm' tz' days' rs' hadd2
  rw [hshape2, hshape1]
  have hne : startKey sid ≠ endKey sid := startKey_ne_endKey sid
  have hs1 : countKey
      (insertKey st.schedules sid
        ⟨cid, stime, etime, sm, tz, days.getD allDays, rs⟩) sid = 1 :=
    countKey_insertKey_le_one _ _ _ h1
  have hj1 : countKey
      (insertKey (insertKey st.jobs (startKey sid)
          ⟨.enableSlowmode, ⟨sh1, sm1, dow1, tz⟩, cid, sm⟩)
        (endKey sid)
        ⟨.restoreSlowmode, ⟨eh1, em1, dow1, tz⟩, cid, rs⟩) (startKey sid) = 1 := by
    rw [countKey_insertKey_ne _ _ _ _ hne]
    exact countKey_insertKey_le_one _ _ _ h2
  have hj2 : countKey
      (insertKey (insertKey st.jobs (startKey sid)
          ⟨.enableSlowmode, ⟨sh1, sm1, dow1, tz⟩, cid, sm⟩)
        (endKey sid)
        ⟨.restoreSlowmode, ⟨eh1, em1, dow1, tz⟩, cid, rs⟩) (endKey sid) = 1 := by
    rw [countKey_insertKey_le_one]
    rw [countKey_insertKey_ne _ _ _ _ (Ne.symm hne)]
    exact h3
  refine ⟨?_, ?_, ?_, lookupKey_insertKey_self _ _ _⟩
  · exact countKey_insertKey_le_one _ _ _ (le_of_eq hs1)
  · rw [countKey_insertKey_ne _ _ _ _ hne]
    exact countKey_insertKey_le_one _ _ _ (le_of_eq hj1)
  · rw [countKey_insertKey_le_one]
    rw [countKey_insertKey_ne _ _ _ _ (Ne.symm hne)]
    exact le_of_eq hj2

theorem c7_readd_replaces_witness :
    (countKey st0.schedules (strOf "1_2_x") ≤ 1 ∧
     countKey st0.jobs (startKey (strOf "1_2_x")) ≤ 1 ∧
     countKey st0.jobs (endKey (strOf "1_2_x")) ≤ 1 ∧
     (add_schedule envU st0 (strOf "1_2_x") 2 (strOf "09:00") (strOf "17:00")
        30 (strOf "UTC") none 0).1 = true ∧
     (add_schedule envU
        (add_schedule envU st0 (strOf "1_2_x") 2 (strOf "09:00")
          (strOf "17:00") 30 (strOf "UTC") none 0).2
        (strOf "1_2_x") 2 (strOf "10:00") (strOf "18:00") 60 (strOf "UTC")
        none 5).1 = true)
    ∧ (countKey (add_schedule envU
        (add_schedule envU st0 (strOf "1_2_x") 2 (strOf "09:00")
          (strOf "17:00") 30 (strOf "UTC") none 0).2
        (strOf "1_2_x") 2 (strOf "10:00") (strOf "18:00") 60 (strOf "UTC")
        none 5).2.schedules (strOf "1_2_x") = 1
       ∧ countKey (add_schedule envU
        (add_schedule envU st0 (strOf "1_2_x") 2 (strOf "09:00")
          (strOf "17:00") 30 (strOf "UTC") none 0).2
        (strOf "1_2_x") 2 (strOf "10:00") (strOf "18:00") 60 (strOf "UTC")
        none 5).2.jobs (startKey (strOf "1_2_x")) = 1
       ∧ countKey (add_schedule envU
        (add_schedule envU st0 (strOf "1_2_x") 2 (strOf "09:00")
          (strOf "17:00") 30 (strOf "UTC") none 0).2
        (strOf "1_2_x") 2 (strOf "10:00") (strOf "18:00") 60 (strOf "UTC")
        none 5).2.jobs (endKey (strOf "1_2_x")) = 1
       ∧ lookupKey (add_schedule envU
        (add_schedule envU st0 (strOf "1_2_x") 2 (strOf "09:00")
          (strOf "17:00") 30 (strOf "UTC") none 0).2
        (strOf "1_2_x") 2 (strOf "10:00") (strOf "18:00") 60 (strOf "UTC")
        none 5).2.schedules (strOf "1_2_x") =
      some ⟨2, strOf "10:00", strOf "18:00", 60, strOf "UTC",
        (none : Option (List Str)).getD allDays, 5⟩) :=
  ⟨⟨by decide, by decide, by decide, by decide, by decide⟩,
   c7_readd_replaces envU st0 (strOf "1_2_x") 2 2 (strOf "09:00")
     (strOf "17:00") (strOf "10:00") (strOf "18:00") 30 60 (strOf "UTC")
     (strOf "UTC") none none 0 5 (by decide) (by decide) (by decide)
     (by decide) (by decide)⟩

/-! ### C9 -/

/-- C9: a rule returned by `get_guild_schedules g` whose id carries
owner `g'` (the id shape produced by the command front end,
`f"{guild_id}_{rest}"`) always has `g' = g` — never another owner's
rule — and `get_schedules` never returns a rule whose enabled flag is
false, so a disabled persisted rule can never be loaded into the index
or listed. -/
theorem c9_owner_scoped_enabled (st : SchedState) (cfg : Config)
    (g g' : Nat) (rest : Str) (d : ScheduleData) (q : Str × ConfigSchedule)
    (hmem : (natRepr g' ++ '_' :: rest, d) ∈ get_guild_schedules st g)
    (hq : q ∈ get_schedules cfg) :
    g' = g ∧ q.2.enabled = true := by
  constructor
  · have hf := (List.mem_filter.mp hmem).2
    exact (guild_prefix_eq hf).symm
  · exact (List.mem_filter.mp hq).2

/-- An index entry owned by guild 7, used by the C9 witness. -/
def dataW : ScheduleData :=
  ⟨2, strOf "09:00", strOf "17:00", 30, strOf "UTC", allDays, 0⟩

/-- A one-entry scheduler state whose single rule id begins with the
guild-7 prefix. -/
def stW : SchedState :=
  ⟨[(natRepr 7 ++ '_' :: strOf "2_09:00_17:00_mon", dataW)], []⟩

/-- An enabled persisted record used by the C9 witness. -/
def csW : ConfigSchedule :=
  ⟨2, strOf "09:00", strOf "17:00", 30, strOf "UTC", allDays, 0, true⟩

/-- A one-entry config store used by the C9 witness. -/
def cfgW : Config := [(strOf "id", csW)]

theorem c9_owner_scoped_enabled_witness :
    ((natRepr 7 ++ '_' :: strOf "2_09:00_17:00_mon", dataW) ∈
        get_guild_schedules stW 7
     ∧ (strOf "id", csW) ∈ get_schedules cfgW)
    ∧ (7 = 7 ∧ (strOf "id", csW).2.enabled = true) :=
  ⟨⟨by decide, by decide⟩,
   c9_owner_scoped_enabled stW cfgW 7 7 (strOf "2_09:00_17:00_mon") dataW
     (strOf "id", csW) (by decide) (by decide)⟩

theorem c8_weekday_mapping_witness :
    (strOf "xyz" ∈ [strOf "xyz"] ∧ strOf "xyz" ∉ weekdayTags)
    ∧ (weekdayTags.map indexOfDay =
        [some 0, some 1, some 2, some 3, some 4, some 5, some 6]
       ∧ indexOfDay (strOf "xyz") = none
       ∧ (add_schedule envU st0 (strOf "w") 1 (strOf "09:00") (strOf "17:00")
            30 (strOf "UTC") (some [strOf "xyz"]) 0).1 = false) :=
  ⟨⟨by decide, by decide⟩,
   c8_weekday_mapping envU st0 (strOf "w") 1 (strOf "09:00") (strOf "17:00")
     30 (strOf "UTC") 0 [strOf "xyz"] (strOf "xyz") (by decide) (by decide)⟩

/-! ### C6 -/

lemma eraseKey_of_not_contains {α : Type} (l : List (Str × α)) (k : Str)
    (hc : containsKey l k = false) : eraseKey l k = l := by
  induction l with
  | nil => rfl
  | cons p ps ih =>
    rw [containsKey, List.any_cons, Bool.or_eq_false_iff] at hc
    obtain ⟨hpk, hps⟩ := hc
    simp only [eraseKey, List.filter_cons, hpk, Bool.not_false, if_true]
    exact congrArg (p :: ·) (ih hps)

lemma config_remove_snd (cfg : Config) (sid : Str) :
    (config_remove cfg sid).2 = eraseKey cfg sid := by
  unfold config_remove
  by_cases hc : containsKey cfg sid
  · simp [hc]
  · rw [Bool.not_eq_true] at hc
    simp only [hc, Bool.false_eq_true, if_false]
    exact (eraseKey_of_not_contains cfg sid hc).symm

lemma containsKey_eraseKey_ne {α : Type} (l : List (Str × α)) (k k' : Str)
    (hne : k' ≠ k) : containsKey (eraseKey l k) k' = containsKey l k' := by
  induction l with
  | nil => rfl
  | cons p ps ih =>
    by_cases hpk : (p.1 == k) = true
    · have hp : p.1 = k := by simpa using hpk
      have hpk' : (p.1 == k') = false := by
        simp only [beq_eq_false_iff_ne, hp]
        exact fun h => hne h.symm
      simp only [eraseKey, List.filter_cons, hpk, Bool.not_true,
        Bool.false_eq_true, if_false, containsKey, List.any_cons, hpk',
        Bool.false_or] at ih ⊢
      exact ih
    · simp only [Bool.not_eq_true] at hpk
      simp only [eraseKey, List.filter_cons, hpk, Bool.not_false, if_true,
        containsKey, List.any_cons] at ih ⊢
      rw [ih]

/-- The config entries whose id is not among `ids` — the shape of the
store after the removal loop. -/
def dropIds (cfg : Config) (ids : List Str) : Config :=
  cfg.filter (fun p => !(ids.any (fun s => p.1 == s)))

lemma dropIds_nil (cfg : Config) : dropIds cfg [] = cfg := by
  simp [dropIds]

lemma dropIds_cons (cfg : Config) (sid : Str) (rest : List Str) :
    dropIds (eraseKey cfg sid) rest = dropIds cfg (sid :: rest) := by
  unfold dropIds eraseKey
  rw [List.filter_filter]
  apply List.filter_congr
  intro p _
  cases h1 : (p.1 == sid) <;>
    cases h2 : rest.any (fun s => p.1 == s) <;>
      simp [List.any_cons, h1, h2]

lemma remove_schedule_present (env : Env) (st : SchedState) (sid : Str)
    (hc : containsKey st.schedules sid = true) :
    remove_schedule env st sid =
      (true, ⟨eraseKey st.schedules sid, removeJobs env st.jobs sid⟩,
       [startKey sid, endKey sid]) := by
  simp [remove_schedule, hc]

lemma removeLoop_spec (env : Env) :
    ∀ (M : List Str) (cfg : Config) (sched : SchedState) (c0 : Nat),
      M.Nodup → (∀ sid ∈ M, containsKey sched.schedules sid = true) →
      (removeLoop env M (cfg, sched, c0)).2.2 = c0 + M.length ∧
      (removeLoop env M (cfg, sched, c0)).1 = dropIds cfg M := by
  intro M
  induction M with
  | nil =>
    intro cfg sched c0 _ _
    exact ⟨rfl, (dropIds_nil cfg).symm⟩
  | cons sid rest ih =>
    intro cfg sched c0 hnd hsync
    have hc : containsKey sched.schedules sid = true :=
      hsync sid (List.mem_cons_self sid rest)
    have hsid : sid ∉ rest := (List.nodup_cons.mp hnd).1
    have hnd' : rest.Nodup := (List.nodup_cons.mp hnd).2
    have hstep : removeLoop env (sid :: rest) (cfg, sched, c0) =
        removeLoop env rest (eraseKey cfg sid,
          ⟨eraseKey sched.schedules sid, removeJobs env sched.jobs sid⟩,
          c0 + 1) := by
      simp [removeLoop, remove_schedule_present env sched sid hc,
        config_remove_snd]
    rw [hstep]
    have hsync' : ∀ s ∈ rest,
        containsKey (SchedState.mk (eraseKey sched.schedules sid)
          (removeJobs env sched.jobs sid)).schedules s = true := by
      intro s hs
      have hne : s ≠ sid := fun h => hsid (h ▸ hs)
      show containsKey (eraseKey sched.schedules sid) s = true
      rw [containsKey_eraseKey_ne _ _ _ hne]
      exact hsync s (List.mem_cons_of_mem sid hs)
    obtain ⟨hcount, hcfg⟩ := ih (eraseKey cfg sid)
      ⟨eraseKey sched.schedules sid, removeJobs env sched.jobs sid⟩
      (c0 + 1) hnd' hsync'
    refine ⟨?_, ?_⟩
    · rw [hcount, List.length_cons]
      omega
    · rw [hcfg, dropIds_cons]

lemma matchingIds_nodup (cfg : Config) (cid : Nat) (stime etime : Str)
    (hnd : (cfg.map Prod.fst).Nodup) :
    (matchingIds cfg cid stime etime).Nodup := by
  unfold matchingIds get_schedules
  exact List.Nodup.sublist
    (List.Sublist.map Prod.fst
      ((List.filter_sublist _).trans (List.filter_sublist _)))
    hnd

lemma bool_eq_of_iff {a b : Bool} (h : a = true ↔ b = true) : a = b := by
  cases a <;> cases b <;> simp_all

lemma filter_length_split {α : Type} (l : List α) (p : α → Bool) :
    (l.filter p).length + (l.filter (fun a => !(p a))).length = l.length := by
  induction l with
  | nil => rfl
  | cons a as ih =>
    cases h : p a <;> simp [List.filter_cons, h] <;> omega

lemma matching_filter_eq (cfg : Config) (cid : Nat) (stime etime : Str)
    (hnd : (cfg.map Prod.fst).Nodup) :
    cfg.filter
        (fun p => (matchingIds cfg cid stime etime).any (fun s => p.1 == s)) =
      (get_schedules cfg).filter (matchTriple cid stime etime) := by
  have hS : (get_schedules cfg).filter (matchTriple cid stime etime) =
      cfg.filter (fun p => matchTriple cid stime etime p && p.2.enabled) := by
    unfold get_schedules
    exact List.filter_filter _ _
  rw [hS]
  apply List.filter_congr
  intro p hp
  apply bool_eq_of_iff
  constructor
  · intro hany
    obtain ⟨s, hsmem, hps⟩ := List.any_eq_true.mp hany
    have hp1 : p.1 ∈ matchingIds cfg cid stime etime := by
      have : p.1 = s := by simpa using hps
      rw [this]; exact hsmem
    obtain ⟨q, hq, hq1⟩ := List.mem_map.mp hp1
    have hqcfg : q ∈ cfg := by
      have hsub : ((get_schedules cfg).filter
          (matchTriple cid stime etime)).Sublist cfg :=
        (List.filter_sublist _).trans (List.filter_sublist _)
      exact hsub.subset hq
    have hqp : q = p := List.inj_on_of_nodup_map hnd hqcfg hp hq1
    have hq' := hq
    rw [hqp] at hq'
    rw [hS] at hq'
    exact (List.mem_filter.mp hq').2
  · intro hpred
    have hpS : p ∈ (get_schedules cfg).filter (matchTriple cid stime etime) := by
      rw [hS]
      exact List.mem_filter.mpr ⟨hp, hpred⟩
    have hp1 : p.1 ∈ matchingIds cfg cid stime etime :=
      List.mem_map.mpr ⟨p, hpS, rfl⟩
    exact List.any_eq_true.mpr ⟨p.1, hp1, by simp⟩

lemma dropIds_matching_length (cfg : Config) (cid : Nat) (stime etime : Str)
    (hnd : (cfg.map Prod.fst).Nodup) :
    (dropIds cfg (matchingIds cfg cid stime etime)).length =
      cfg.length - (matchingIds cfg cid stime etime).length := by
  have hsplit := filter_length_split cfg
    (fun p => (matchingIds cfg cid stime etime).any (fun s => p.1 == s))
  have hpos : (cfg.filter
      (fun p => (matchingIds cfg cid stime etime).any (fun s => p.1 == s))).length =
      (matchingIds cfg cid stime etime).length := by
    rw [matching_filter_eq cfg cid stime etime hnd]
    unfold matchingIds
    rw [List.length_map]
  unfold dropIds
  omega

/-- C6 counterexample: a persisted store holding a single DISABLED rule
whose `(channel, start, end)` triple matches the removal request.  The
claim says every stored rule with a matching triple is removed and the
call reports success; the code filters disabled schedules out before
matching, removes nothing, and reports failure. -/
def cfgDisabled : Config :=
  [(strOf "9_3_08:00_10:00_mon",
    ⟨3, strOf "08:00", strOf "10:00", 30, strOf "UTC", [strOf "mon"], 0,
     false⟩)]

theorem c6_cex :
    (bot_remove_schedule envU cfgDisabled st0 3 (strOf "08:00")
        (strOf "10:00")).1 = false
    ∧ (bot_remove_schedule envU cfgDisabled st0 3 (strOf "08:00")
        (strOf "10:00")).2.1 = cfgDisabled
    ∧ (bot_remove_schedule envU cfgDisabled st0 3 (strOf "08:00")
        (strOf "10:00")).2.2.2 = 0
    ∧ matchTriple 3 (strOf "08:00") (strOf "10:00")
        (strOf "9_3_08:00_10:00_mon",
         ⟨3, strOf "08:00", strOf "10:00", 30, strOf "UTC", [strOf "mon"], 0,
          false⟩) = true := by
  decide

/-- C6 (amended): the command removes every ENABLED stored rule whose
`(channel_id, start_time, end_time)` triple matches — including several
rules differing only in their day-sets — provided each matching id is
armed in the scheduler index (the invariant maintained by the add and
reload paths); `removed_count` equals the number of matches, the store
loses exactly the matching entries (its size decreases by the number of
matches), and the call reports success iff at least one such match
existed.  Disabled stored rules are never matched or removed. -/
theorem c6_remove_matches (env : Env) (cfg : Config) (sched : SchedState)
    (cid : Nat) (stime etime : Str)
    (hnd : (cfg.map Prod.fst).Nodup)
    (hsync : ∀ sid ∈ matchingIds cfg cid stime etime,
      containsKey sched.schedules sid = true) :
    (bot_remove_schedule env cfg sched cid stime etime).2.2.2 =
      (matchingIds cfg cid stime etime).length
    ∧ (bot_remove_schedule env cfg sched cid stime etime).1 =
      !(matchingIds cfg cid stime etime).isEmpty
    ∧ (bot_remove_schedule env cfg sched cid stime etime).2.1 =
      dropIds cfg (matchingIds cfg cid stime etime)
    ∧ (bot_remove_schedule env cfg sched cid stime etime).2.1.length =
      cfg.length - (matchingIds cfg cid stime etime).length := by
  unfold bot_remove_schedule
  by_cases hEmpty : (matchingIds cfg cid stime etime).isEmpty = true
  · have hnil : matchingIds cfg cid stime etime = [] := by
      cases hmm : matchingIds cfg cid stime etime with
      | nil => rfl
      | cons a as => rw [hmm] at hEmpty; simp [List.isEmpty] at hEmpty
    simp [hEmpty, hnil, dropIds_nil]
  · rw [Bool.not_eq_true] at hEmpty
    obtain ⟨hcount, hcfg⟩ := removeLoop_spec env
      (matchingIds cfg cid stime etime) cfg sched 0
      (matchingIds_nodup cfg cid stime etime hnd) hsync
    have hlenpos : 0 < (matchingIds cfg cid stime etime).length := by
      cases hmm : matchingIds cfg cid stime etime with
      | nil => rw [hmm] at hEmpty; simp [List.isEmpty] at hEmpty
      | cons a as => simp
    simp only [hEmpty, Bool.false_eq_true, if_false, Bool.not_false]
    refine ⟨by rw [hcount]; omega, ?_, ?_, ?_⟩
    · rw [hcount]
      simp only [Nat.zero_add, decide_eq_true_eq]
      exact hlenpos
    · exact hcfg
    · rw [hcfg]
      exact dropIds_matching_length cfg cid stime etime hnd

/-- A two-rule store matching the spec's scenario: identical triples,
different day-sets. -/
def cfgTwo : Config :=
  [(strOf "1_3_08:00_10:00_mon",
    ⟨3, strOf "08:00", strOf "10:00", 30, strOf "UTC", [strOf "mon"], 0,
     true⟩),
   (strOf "1_3_08:00_10:00_tue",
    ⟨3, strOf "08:00", strOf "10:00", 30, strOf "UTC", [strOf "tue"], 0,
     true⟩)]

/-- A scheduler state holding the two rules of `cfgTwo`. -/
def stTwo : SchedState :=
  ⟨[(strOf "1_3_08:00_10:00_mon",
     ⟨3, strOf "08:00", strOf "10:00", 30, strOf "UTC", [strOf "mon"], 0⟩),
    (strOf "1_3_08:00_10:00_tue",
     ⟨3, strOf "08:00", strOf "10:00", 30, strOf "UTC", [strOf "tue"], 0⟩)],
   []⟩

theorem c6_remove_matches_witness :
    ((cfgTwo.map Prod.fst).Nodup ∧
     ∀ sid ∈ matchingIds cfgTwo 3 (strOf "08:00") (strOf "10:00"),
       containsKey stTwo.schedules sid = true)
    ∧ ((bot_remove_schedule envU cfgTwo stTwo 3 (strOf "08:00")
          (strOf "10:00")).2.2.2 =
        (matchingIds cfgTwo 3 (strOf "08:00") (strOf "10:00")).length
       ∧ (bot_remove_schedule envU cfgTwo stTwo 3 (strOf "08:00")
          (strOf "10:00")).1 =
        !(matchingIds cfgTwo 3 (strOf "08:00") (strOf "10:00")).isEmpty
       ∧ (bot_remove_schedule envU cfgTwo stTwo 3 (strOf "08:00")
          (strOf "10:00")).2.1 =
        dropIds cfgTwo (matchingIds cfgTwo 3 (strOf "08:00") (strOf "10:00"))
       ∧ (bot_remove_schedule envU cfgTwo stTwo 3 (strOf "08:00")
          (strOf "10:00")).2.1.length =
        cfgTwo.length -
          (matchingIds cfgTwo 3 (strOf "08:00") (strOf "10:00")).length) :=
  ⟨⟨by decide, by decide⟩,
   c6_remove_matches envU cfgTwo stTwo 3 (strOf "08:00") (strOf "10:00")
     (by decide) (by decide)⟩

end Slowmode

